import Mathlib

/-!
Verification development for the MLOS shared-memory core
(`source/Mlos.Core`): the lock-free shared ring-buffer channel
(`SharedChannel.inl` / `SharedChannel.cpp`), the arena allocator
(`ArenaAllocator.cpp`), the shared-config dictionary
(`SharedConfigDictionaryLookup.inl` with `ProbingPolicy.inl`), and the
Linux shared-memory map view (`SharedMemoryMapView.Linux.cpp`).

The embedding is shallow: 32-bit unsigned position counters become `Nat`
with explicit `% 2^32` arithmetic, the signed 32-bit frame-length word
becomes `Int`, ring-buffer memory becomes a word-addressed map
`Nat → Int` (the C++ code only ever accesses the buffer at 4-byte
granularity: the length word, the codegen-type-index word, the two words
of the 64-bit type hash, and 4-byte-aligned payload/memset runs), and
every C++ `while` loop becomes a fuel-indexed recursion returning
`Option`/a sum so that running out of fuel is distinguishable from
normal return (a diverging loop in the source maps to fuel exhaustion,
never to a fabricated result).  Concurrency is treated by exposing each
atomic step of the source (one successful compare-and-swap, one frame
body write, one dispatch, one free-advance) as its own function, so that
an arbitrary interleaving is a sequence of these steps; the reader-side
CAS protocol is additionally modelled as a step relation.
-/

namespace MlosCore

/-- 2^32: positions in `ChannelSynchronization` are `uint32_t`. -/
def MOD : Nat := 2 ^ 32

/-- `uint32_t` addition. -/
def add32 (a b : Nat) : Nat := (a + b) % MOD

/-- `uint32_t` subtraction (`a - b` with wraparound). -/
def sub32 (a b : Nat) : Nat := (a % MOD + (MOD - b % MOD)) % MOD

/-- `sizeof(FrameHeader)`: `Length : int32_t`, `CodegenTypeIndex : uint32_t`,
`CodegenTypeHash : uint64_t` — 16 bytes. -/
def FrameHeaderSize : Nat := 16

/-- `align<N>(size) = ((size + N - 1) / N) * N` from `Utils.h`. -/
def align (n size : Nat) : Nat := ((size + n - 1) / n) * n

/-- `most_significant_bit` from `Utils.h` counts how often the value can be
shifted right before reaching zero, i.e. the floor base-2 logarithm. -/
def most_significant_bit (v : Nat) : Nat := Nat.log2 v

/-- Pointwise update of a map, modelling a single store. -/
def store {α : Type} (m : Nat → α) (i : Nat) (v : α) : Nat → α :=
  fun j => if j = i then v else m j

/-- The ring-buffer bytes, word-addressed: `mem o` is the 32-bit word at
byte offset `o` (the code only accesses 4-byte-aligned words). -/
abbrev Mem := Nat → Int

/-- The six fields of the `ChannelSynchronization` block (the atomic
counters of a channel, living in the global memory region). -/
structure ChannelSync where
  WritePosition : Nat
  ReadPosition : Nat
  FreePosition : Nat
  ActiveReaderCount : Nat
  ReaderInWaitingStateCount : Nat
  TerminateChannel : Bool

/-- A channel's shared state: its `ChannelSynchronization` block plus the
ring-buffer memory. -/
structure ChannelState where
  sync : ChannelSync
  mem : Mem

def setWrite (st : ChannelState) (w : Nat) : ChannelState :=
  { st with sync := { st.sync with WritePosition := w } }

def setRead (st : ChannelState) (r : Nat) : ChannelState :=
  { st with sync := { st.sync with ReadPosition := r } }

def setFree (st : ChannelState) (f : Nat) : ChannelState :=
  { st with sync := { st.sync with FreePosition := f } }

def setTerminate (st : ChannelState) (b : Bool) : ChannelState :=
  { st with sync := { st.sync with TerminateChannel := b } }

/-- Zero out `k` consecutive words starting at byte offset `off`
(one `memset` run, word-granular). -/
def clearWords : Mem → Nat → Nat → Mem
  | mem, _, 0 => mem
  | mem, off, k + 1 => clearWords (store mem off 0) (off + 4) k

/-- `ISharedChannel::ClearPayload`: `memset(buf + off + 4, 0, len - 4)` —
clears the whole frame except the length word. -/
def ClearPayload (mem : Mem) (off len : Nat) : Mem :=
  clearWords mem (off + 4) ((len - 4) / 4)

/-- `ISharedChannel::ClearLinkPayload`: clears a link frame's body, in two
runs when the link wraps past the buffer's physical end. -/
def ClearLinkPayload (mem : Mem) (off len size : Nat) : Mem :=
  let off := off + 4
  let len := len - 4
  if size < off + len then
    clearWords (clearWords mem off ((size - off) / 4)) 0 ((len + off - size) / 4)
  else
    clearWords mem off (len / 4)

/-- Result of `SharedChannel::AcquireRegionForWrite` (the inner CAS loop).
`uint32_t::max` becomes the `terminated` constructor. -/
inductive AcquireResult where
  | acquired (writeOffset frameLength : Nat) (st : ChannelState)
  | terminated (st : ChannelState)
  | outOfFuel

/-- One successful iteration of `SharedChannel::AcquireRegionForWrite`:
the free-space check passes and the CAS on `WritePosition` succeeds.
Returns `none` when the space check `write - free < Margin - frameLength`
fails (the loop then consults `TerminateChannel` / `AdvanceFreePosition`).
When the end of the requested frame lands in the buffer margin the frame
length is extended by the gap to the buffer end. -/
def AcquireStep (size frameLength : Nat) (st : ChannelState) :
    Option (Nat × Nat × ChannelState) :=
  let margin := size - FrameHeaderSize
  let freePosition := st.sync.FreePosition
  let writePosition := st.sync.WritePosition
  if sub32 writePosition freePosition < sub32 margin frameLength then
    let nextWritePosition := add32 writePosition frameLength
    let nextWriteOffset := nextWritePosition % size
    let adj := if margin ≤ nextWriteOffset then size - nextWriteOffset else 0
    some (writePosition % size, frameLength + adj,
      setWrite st (add32 nextWritePosition adj))
  else
    none

/-- The loop of `ISharedChannel::AdvanceFreePosition`: follow negative
(reclaim-ready) frame lengths from `free` until the snapshotted
`read` position is reached; stop early at a non-negative length. -/
def AdvanceFreeLoop (size : Nat) (mem : Mem) (read : Nat) :
    Nat → Nat → Option Nat
  | 0, _ => none
  | fuel + 1, free =>
    if free = read then some free
    else
      let frameLength := mem (free % size)
      if 0 ≤ frameLength then some free
      else AdvanceFreeLoop size mem read fuel (add32 free frameLength.natAbs)

/-- `ISharedChannel::AdvanceFreePosition` (sequential: every CAS on
`FreePosition` succeeds). -/
def AdvanceFreePosition (size afuel : Nat) (st : ChannelState) :
    Option ChannelState :=
  let freePosition := st.sync.FreePosition
  let readPosition := st.sync.ReadPosition
  if freePosition = readPosition then some st
  else (AdvanceFreeLoop size st.mem readPosition afuel freePosition).map (setFree st)

/-- `SharedChannel::AcquireRegionForWrite` run sequentially: retry the
space check after `AdvanceFreePosition` until a region is acquired, the
channel is seen terminated, or fuel runs out (the source spins). -/
def AcquireRegionForWrite (size frameLength : Nat) :
    Nat → Nat → ChannelState → AcquireResult
  | 0, _, _ => .outOfFuel
  | fuel + 1, afuel, st =>
    match AcquireStep size frameLength st with
    | some (writeOffset, flen, st') => .acquired writeOffset flen st'
    | none =>
      if st.sync.TerminateChannel then .terminated st
      else
        match AdvanceFreePosition size afuel st with
        | none => .outOfFuel
        | some st' => AcquireRegionForWrite size frameLength fuel afuel st'

/-- Result of one iteration of
`SharedChannel::AcquireWriteRegionForFrame`'s loop: either a region that
holds a full contiguous frame, or an empty (link) frame was written and
the operation must be retried from scratch. -/
inductive IterResult where
  | done (writeOffset frameLength : Nat) (st : ChannelState)
  | fillerWritten (writeOffset frameLength : Nat) (st : ChannelState)
  | terminated (st : ChannelState)
  | outOfFuel

/-- One iteration of `SharedChannel::AcquireWriteRegionForFrame`: acquire
a region; if the full frame would overlap the buffer end
(`writeOffset + frameLength > Size`), store `CodegenTypeIndex = 0` and
signal the frame ready (an empty frame adjusting the write offset), and
report that the whole operation must be retried. -/
def AcquireWriteRegionForFrameIter (size expected afuel ifuel : Nat)
    (st : ChannelState) : IterResult :=
  match AcquireRegionForWrite size expected ifuel afuel st with
  | .outOfFuel => .outOfFuel
  | .terminated st' => .terminated st'
  | .acquired writeOffset frameLength st' =>
    if size < writeOffset + frameLength then
      let mem := store st'.mem (writeOffset + 4) 0
      let mem := store mem writeOffset (Int.ofNat frameLength)
      .fillerWritten writeOffset frameLength { st' with mem := mem }
    else
      .done writeOffset frameLength st'

/-- `SharedChannel::AcquireWriteRegionForFrame`: iterate (resetting the
frame length to the caller's aligned length each time, as the source
does) until a full contiguous frame fits. -/
def AcquireWriteRegionForFrame (size expected : Nat) :
    Nat → Nat → Nat → ChannelState → IterResult
  | 0, _, _, _ => .outOfFuel
  | ofuel + 1, afuel, ifuel, st =>
    match AcquireWriteRegionForFrameIter size expected afuel ifuel st with
    | .fillerWritten _ _ st' =>
      AcquireWriteRegionForFrame size expected ofuel afuel ifuel st'
    | r => r

/-- A typed message as the channel sees it: its codegen identifiers, its
serialized size, and its serialized words (the model restricts payloads
to whole 4-byte words, which every claim here is indifferent to). -/
structure Message where
  CodegenTypeIndex : Nat
  CodegenTypeHash : Nat
  SerializedSize : Nat
  words : Nat → Int

/-- Write `k` serialized payload words at byte offset `off`. -/
def writeWords (mem : Mem) (off : Nat) (w : Nat → Int) : Nat → Mem
  | 0 => mem
  | k + 1 => store (writeWords mem off w k) (off + 4 * k) (w k)

/-- Result of `ISharedChannel::SendMessage`: the message was written, or
the write was abandoned because the channel is terminated. -/
inductive SendResult where
  | sent (st : ChannelState)
  | dropped (st : ChannelState)
  | outOfFuel

/-- `ISharedChannel::SendMessage`: align the frame length, acquire a
write region, store the length with the incomplete bit, store type index
and hash, serialize the payload, then publish the final length
(`SignalFrameIsReady`).  A `uint32_t::max` offset from the acquire means
the channel was terminated and the send is ignored. -/
def SendMessage (size : Nat) (msg : Message) (ofuel afuel ifuel : Nat)
    (st : ChannelState) : SendResult :=
  let frameLength := align 4 (FrameHeaderSize + msg.SerializedSize)
  match AcquireWriteRegionForFrame size frameLength ofuel afuel ifuel st with
  | .outOfFuel => .outOfFuel
  | .fillerWritten _ _ _ => .outOfFuel
  | .terminated st' => .dropped st'
  | .done writeOffset flen st' =>
    let mem := store st'.mem writeOffset (Int.ofNat (flen ||| 1))
    let mem := store mem (writeOffset + 4) (Int.ofNat msg.CodegenTypeIndex)
    let mem := store mem (writeOffset + 8) (Int.ofNat (msg.CodegenTypeHash % MOD))
    let mem := store mem (writeOffset + 12) (Int.ofNat (msg.CodegenTypeHash / MOD))
    let mem := writeWords mem (writeOffset + 16) msg.words (msg.SerializedSize / 4)
    let mem := store mem writeOffset (Int.ofNat flen)
    .sent { st' with mem := mem }

/-- Result of one sequential `SharedChannel::WaitAndDispatchFrame`. -/
inductive DispatchResult where
  | processed (st : ChannelState)
  | aborted (st : ChannelState)
  | blocked (st : ChannelState)

/-- `SharedChannel::WaitAndDispatchFrame` run sequentially (the
`WaitForFrame` CAS on `ReadPosition` succeeds; a frame whose incomplete
bit is still set, or an empty channel, leaves the reader spinning /
waiting, reported as `blocked`).  Dispatching clears the frame body
(`ClearPayload`, or `ClearLinkPayload` for a link frame) and stores the
negated length (`SignalFrameForCleanup`). -/
def WaitAndDispatchFrame (size tableLen : Nat) (st : ChannelState) :
    DispatchResult :=
  let readPosition := st.sync.ReadPosition
  let readOffset := readPosition % size
  let frameLength := st.mem readOffset
  if 0 < frameLength then
    let st' := setRead st (add32 readPosition (frameLength - frameLength.emod 2).toNat)
    if frameLength.emod 2 = 1 then .blocked st'
    else
      let codegenTypeIndex := (st'.mem (readOffset + 4)).toNat
      let mem :=
        if codegenTypeIndex ≠ 0 ∧ codegenTypeIndex ≤ tableLen then
          ClearPayload st'.mem readOffset frameLength.toNat
        else if codegenTypeIndex = 0 then
          ClearLinkPayload st'.mem readOffset frameLength.toNat size
        else
          ClearPayload st'.mem readOffset frameLength.toNat
      let mem := store mem readOffset (-frameLength)
      .processed { st' with mem := mem }
  else if st.sync.TerminateChannel then .aborted st
  else .blocked st

/-- The frame-fixing loop of `ISharedChannel::InitializeChannel`: walk
from the free position to the write position; a frame whose length is
negative or has the incomplete bit set is reset to
`abs(length) & ~1` with its payload cleared. -/
def InitWalkLoop (size : Nat) : Nat → Mem → Nat → Nat → Option Mem
  | 0, _, _, _ => none
  | fuel + 1, mem, freePosition, writePosition =>
    if freePosition = writePosition then some mem
    else
      let freeOffset := freePosition % size
      let frameLength := mem freeOffset
      if frameLength < 0 ∨ frameLength.emod 2 = 1 then
        let la := if 0 < frameLength then frameLength else -frameLength
        let lc := la - la.emod 2
        let mem := ClearPayload mem freeOffset lc.toNat
        let mem := store mem freeOffset lc
        InitWalkLoop size fuel mem (add32 freePosition lc.toNat) writePosition
      else
        InitWalkLoop size fuel mem (add32 freePosition frameLength.toNat) writePosition

/-- `ISharedChannel::InitializeChannel`: clear the terminate flag,
advance the free position over reclaim-ready frames, fix up
partially-written / already-processed frames, then set the read position
back to the free position so unprocessed frames are re-dispatched. -/
def InitializeChannel (size afuel wfuel : Nat) (st : ChannelState) :
    Option ChannelState :=
  let st := setTerminate st false
  match AdvanceFreePosition size afuel st with
  | none => none
  | some st' =>
    match InitWalkLoop size wfuel st'.mem st'.sync.FreePosition st'.sync.WritePosition with
    | none => none
    | some mem => some (setRead { st' with mem := mem } st'.sync.FreePosition)

/-- The `ISharedChannel` constructor: round the size down to
`1 << most_significant_bit(size)` and initialize the channel. -/
def MkSharedChannel (sizeParam afuel wfuel : Nat) (st : ChannelState) :
    Option ChannelState :=
  InitializeChannel (2 ^ most_significant_bit sizeParam) afuel wfuel st

/-- The number of bytes a frame whose stored length word is `l` occupies:
`abs(l) & ~1` (the incomplete bit is not part of the length). -/
def effLen (l : Int) : Nat := l.natAbs - l.natAbs % 2

/-- Total bytes occupied by a run of frames, by their length words. -/
def sumEff (ls : List Int) : Nat := (ls.map effLen).sum

/-- Total bytes reclaimed by `AdvanceFreePosition` over a run of frames:
it advances by `abs(l)` (the stored lengths there are negative). -/
def sumAbs (ls : List Int) : Nat := (ls.map Int.natAbs).sum

/-- Buffer offsets and length words of a run of frames laid out from
position `p`, each following frame starting `effLen` bytes later. -/
def frameSpec (size : Nat) : Nat → List Int → List (Nat × Int)
  | _, [] => []
  | p, l :: ls => (p % size, l) :: frameSpec size (add32 p (effLen l)) ls

/-- Buffer offsets and length words of a run of reclaim-ready frames from
position `p`, each following frame starting `abs(l)` bytes later. -/
def frameSpecAbs (size : Nat) : Nat → List Int → List (Nat × Int)
  | _, [] => []
  | p, l :: ls => (p % size, l) :: frameSpecAbs size (add32 p l.natAbs) ls

/-- The proper partial sums of `abs(l)` over a run of frames: the
distances from the run's start to each frame boundary except the last. -/
def properSumsAbs : List Int → List Nat
  | [] => []
  | l :: ls => 0 :: (properSumsAbs ls).map (· + l.natAbs)

/-- Byte `x` lies in the span of the frame at offset `ol.1` with length
word `ol.2`. -/
def inSpan (x : Nat) (ol : Nat × Int) : Prop :=
  ol.1 ≤ x ∧ x < ol.1 + effLen ol.2

instance (x : Nat) (ol : Nat × Int) : Decidable (inSpan x ol) := by
  unfold inSpan; infer_instance

/-- Two frames occupy disjoint byte spans. -/
def spanDisjoint (a b : Nat × Int) : Prop :=
  a.1 + effLen a.2 ≤ b.1 ∨ b.1 + effLen b.2 ≤ a.1

instance (a b : Nat × Int) : Decidable (spanDisjoint a b) := by
  unfold spanDisjoint; infer_instance

/-- What `InitializeChannel`'s fix-up walk leaves of one frame: a frame
whose length was negative or had the incomplete bit set is reset to
`abs(length) & ~1` with all payload words cleared; any other frame is
left untouched. -/
def initFrameResult (mem mem' : Mem) (ol : Nat × Int) : Prop :=
  if ol.2 < 0 ∨ ol.2.emod 2 = 1 then
    mem' ol.1 = (effLen ol.2 : Int) ∧
      ∀ k, 1 ≤ k → 4 * k < effLen ol.2 → mem' (ol.1 + 4 * k) = 0
  else
    ∀ x, inSpan x ol → mem' x = mem x

/-- `sizeof(Internal::AllocationEntry)`.  Modelled from the spec: the
struct is code-generated and not under `src/`; per the spec it is
`AllocationEntry{prev_offset, next_offset}`, two 32-bit offsets,
8 bytes. -/
def AllocationEntrySize : Nat := 8

/-- The `Internal::ArenaAllocator` header fields used by
`AllocateInMemoryRegion` (the `OffsetToAllocator` self-offset is a
pointer-recovery artifact and is absorbed by modelling the region memory
separately). -/
structure ArenaAllocator where
  FirstAllocationOffset : Nat
  AllocationBlockSize : Nat
  FreeOffset : Nat
  AllocationCount : Nat
  LastAllocatedOffset : Nat

/-- Region memory holding the `AllocationEntry` link words:
`PrevEntryoffset` at each entry's offset, `NextEntryOffset` at its
offset + 4. -/
abbrev RegionMem := Nat → Nat

/-- `Mlos::Core::Internal::AllocateInMemoryRegion` from
`ArenaAllocator.cpp`: add the entry header size, fail with
`E_OUTOFMEMORY` when `FreeOffset + size >= AllocationBlockSize +
FirstAllocationOffset`, otherwise bump `FreeOffset` by the 64-byte
aligned size, link the new entry behind the previous one, and return the
offset just past the entry header. -/
def AllocateInMemoryRegion (allocator : ArenaAllocator) (rmem : RegionMem)
    (size : Nat) : Option (ArenaAllocator × RegionMem × Nat) :=
  let size := size + AllocationEntrySize
  if allocator.AllocationBlockSize + allocator.FirstAllocationOffset ≤
      allocator.FreeOffset + size then
    none
  else
    let offset := allocator.FreeOffset
    let rmem :=
      if allocator.LastAllocatedOffset ≠ 0 then
        store rmem (allocator.LastAllocatedOffset + 4) offset
      else rmem
    let rmem := store rmem offset allocator.LastAllocatedOffset
    some
      ({ allocator with
          FreeOffset := allocator.FreeOffset + align 64 size,
          AllocationCount := allocator.AllocationCount + 1,
          LastAllocatedOffset := offset },
        rmem, offset + AllocationEntrySize)

/-- Modelled from the spec (the claim's own words, for comparison with
the source): the allocation is claimed to fail with `OutOfMemory`
exactly when `free_offset + rounded_size > end_offset`, where
`rounded_size` is `size + sizeof(AllocationEntry)` rounded up to a
64-byte multiple and `end_offset = FirstAllocationOffset +
AllocationBlockSize`. -/
def claimedAllocFailure (allocator : ArenaAllocator) (size : Nat) : Prop :=
  allocator.AllocationBlockSize + allocator.FirstAllocationOffset <
    allocator.FreeOffset + align 64 (size + AllocationEntrySize)

instance (a : ArenaAllocator) (size : Nat) : Decidable (claimedAllocFailure a size) := by
  unfold claimedAllocFailure; infer_instance

/-- The shared-memory object namespace of `shm_open`/`shm_unlink`: maps a
name to the size of the object backing it (`none` = no such object). -/
abbrev ShmNamespace := String → Option Nat

/-- `shm_unlink(name)`: remove the name; no-op when absent. -/
def shmUnlink (fs : ShmNamespace) (name : String) : ShmNamespace :=
  fun n => if n = name then none else fs n

/-- `shm_open(name, O_EXCL | O_CREAT | O_RDWR, ...)`: fail if the name
exists, otherwise create an empty object under it. -/
def shmOpenExcl (fs : ShmNamespace) (name : String) : Option ShmNamespace :=
  match fs name with
  | some _ => none
  | none => some (fun n => if n = name then some 0 else fs n)

/-- The `ftruncate(fd, memSize)` + `mmap` body of
`SharedMemoryMapView::MapMemoryView`: the object now has `memSize`
bytes. -/
def MapMemoryView (fs : ShmNamespace) (name : String) (memSize : Nat) :
    ShmNamespace :=
  fun n => if n = name then some memSize else fs n

/-- Result of `SharedMemoryMapView::CreateNew` over the model namespace. -/
inductive CreateNewResult where
  | ok (fs : ShmNamespace)
  | alreadyExists (fs : ShmNamespace)
  | ioFailure (fs : ShmNamespace)

/-- `SharedMemoryMapView::CreateNew` from
`SharedMemoryMapView.Linux.cpp`: `shm_unlink(name)` first, then
`shm_open(name, O_EXCL | O_CREAT | O_RDWR, ...)`, then map with the
requested size. -/
def CreateNew (fs : ShmNamespace) (name : String) (memSize : Nat) :
    CreateNewResult :=
  let fs := shmUnlink fs name
  match shmOpenExcl fs name with
  | none => .ioFailure fs
  | some fs => .ok (MapMemoryView fs name memSize)

def CreateNewResult.isAlreadyExists : CreateNewResult → Bool
  | .alreadyExists _ => true
  | _ => false

def CreateNewResult.names : CreateNewResult → ShmNamespace
  | .ok fs => fs
  | .alreadyExists fs => fs
  | .ioFailure fs => fs

/-- `sizeof(SharedConfigHeader)` (asserted to be 32 in
`SharedConfig.h`). -/
def SharedConfigHeaderSize : Nat := 32

/-- A shared config record: the `SharedConfigHeader` (`ConfigId`,
`CodegenTypeIndex`) followed by the serialized config, abstracted to its
codegen key and remaining payload. -/
structure SharedConfigRecord where
  ConfigId : Nat
  CodegenTypeIndex : Nat
  key : Nat
  config : Nat

/-- The `SharedConfigDictionary` with the memory region it lives in: the
slot array (`UIntArray` of offsets, 0 = empty), its element count, the
arena allocator, the allocation-entry link words, and the record bytes
viewed as records (`records o` is what `reinterpret_cast` at offset `o`
yields). -/
structure SharedConfigDictionary where
  slots : Nat → Nat
  elementCount : Nat
  Allocator : ArenaAllocator
  rmem : RegionMem
  records : Nat → SharedConfigRecord

/-- `ComponentConfig<T>`: the local copy of the config (codegen type
index, codegen key, payload) plus the `m_sharedConfig` binding as an
offset. -/
structure ComponentConfig where
  CodegenTypeIndex : Nat
  key : Nat
  config : Nat
  boundOffset : Option Nat

/-- Result of `CreateOrUpdateFromInSharedConfigDictionary`.  The source
returns `S_OK` on both paths; the `existing`/`created` split records
which return statement fired. -/
inductive CreateOrUpdateResult where
  | existing (d : SharedConfigDictionary) (cc : ComponentConfig)
  | created (d : SharedConfigDictionary) (cc : ComponentConfig)
  | outOfMemory
  | outOfFuel

/-- `SharedConfigDictionaryLookup<TLinearProbing>::
CreateOrUpdateFromInSharedConfigDictionary`: probe linearly from
`hash(key)` (`ProbingPolicy.inl`: `(hashValue + probingCount++) %
elementCount`); on a non-empty slot whose record matches the codegen
type and key, bind and copy shared → local (`ComponentConfig::Bind` /
`Update`); on an empty slot allocate `sizeof(SharedConfigHeader) +
serialized_size` from the arena, initialize the record from the default
config (`ConfigId = 1`), bind, and only then publish the offset in the
slot.  `keyHash` stands for the code-generated
`TypeMetadataInfo::GetKeyHashValue`, `payloadSize` for the code-generated
`ObjectSerialization::GetSerializedSize`. -/
def CreateOrUpdateFromInSharedConfigDictionary (keyHash : Nat → Nat)
    (payloadSize : Nat) (cc : ComponentConfig) :
    SharedConfigDictionary → Nat → Nat → CreateOrUpdateResult
  | _, _, 0 => .outOfFuel
  | d, probingCount, fuel + 1 =>
    let slotIndex := (keyHash cc.key + probingCount) % d.elementCount
    let offsetToSharedConfig := d.slots slotIndex
    if offsetToSharedConfig = 0 then
      let sharedConfigSize := SharedConfigHeaderSize + payloadSize
      match AllocateInMemoryRegion d.Allocator d.rmem sharedConfigSize with
      | none => .outOfMemory
      | some (a, rmem, allocatedOffset) =>
        let rec0 : SharedConfigRecord :=
          { ConfigId := 1, CodegenTypeIndex := cc.CodegenTypeIndex,
            key := cc.key, config := cc.config }
        .created
          { d with
              Allocator := a
              rmem := rmem
              records := store d.records allocatedOffset rec0
              slots := store d.slots slotIndex allocatedOffset }
          { cc with boundOffset := some allocatedOffset }
    else
      let hdr := d.records offsetToSharedConfig
      if hdr.CodegenTypeIndex = cc.CodegenTypeIndex ∧ hdr.key = cc.key then
        .existing d
          { cc with
              boundOffset := some offsetToSharedConfig
              config := hdr.config }
      else
        CreateOrUpdateFromInSharedConfigDictionary keyHash payloadSize cc d
          (probingCount + 1) fuel

/-- The multi-reader view of a channel for the read-claim protocol: the
shared `ReadPosition` counter (unbounded monotone view of the `uint32_t`;
two claims of the same ring slot in different wraparound generations are
distinct frames) and the history of successful claims
`(reader, claimed position)`. -/
structure ReadersState where
  ReadPosition : Nat
  claims : List (Nat × Nat)

/-- One successful CAS of `SharedChannel::WaitForFrame`: a reader that
loaded `frameLength > 0` at the current read position advances
`ReadPosition` by `frameLength & ~1` and thereby claims (and will
dispatch) the frame at its old value.  A failed CAS changes nothing and
the reader retries, so only successful CASes appear as steps.
`1 < frameLength` holds for every length the write path ever publishes
(`frameLength ≥ sizeof(FrameHeader)`, incomplete bit included). -/
inductive ReaderStep : ReadersState → ReadersState → Prop
  | claim (reader : Nat) (frameLength : Int) (s : ReadersState)
      (hlen : 1 < frameLength) :
      ReaderStep s
        ⟨s.ReadPosition + (frameLength - frameLength.emod 2).toNat,
          (reader, s.ReadPosition) :: s.claims⟩

/-- A channel state used as the default when projecting out of a result
that cannot occur on the traces below. -/
def junkChannel : ChannelState :=
  ⟨⟨0, 0, 0, 0, 0, false⟩, fun _ => 0⟩

/-- A freshly zeroed `ChannelSynchronization` block and ring buffer, as
mapped shared memory starts out. -/
def zeroChannel : ChannelState :=
  ⟨⟨0, 0, 0, 0, 0, false⟩, fun _ => 0⟩

def SendResult.stateD : SendResult → ChannelState → ChannelState
  | .sent st, _ => st
  | .dropped st, _ => st
  | .outOfFuel, d => d

def SendResult.isSent : SendResult → Bool
  | .sent _ => true
  | _ => false

def DispatchResult.state : DispatchResult → ChannelState
  | .processed st => st
  | .aborted st => st
  | .blocked st => st

def DispatchResult.isProcessed : DispatchResult → Bool
  | .processed _ => true
  | _ => false

def IterResult.stateD : IterResult → ChannelState → ChannelState
  | .done _ _ st, _ => st
  | .fillerWritten _ _ st, _ => st
  | .terminated st, _ => st
  | .outOfFuel, d => d

def IterResult.isDone : IterResult → Bool
  | .done _ _ _ => true
  | _ => false

def IterResult.isFillerWritten : IterResult → Bool
  | .fillerWritten _ _ _ => true
  | _ => false

def IterResult.offsetD : IterResult → Nat
  | .done writeOffset _ _ => writeOffset
  | .fillerWritten writeOffset _ _ => writeOffset
  | _ => 0

def IterResult.lengthD : IterResult → Nat
  | .done _ frameLength _ => frameLength
  | .fillerWritten _ frameLength _ => frameLength
  | _ => 0

/-- The frame-body writes of `ISharedChannel::SendMessage` after the
region is acquired: length with the incomplete bit, type index, type
hash, serialized payload, then the published length
(`SignalFrameIsReady`). -/
def WriteFrameBody (msg : Message) (writeOffset flen : Nat)
    (st : ChannelState) : ChannelState :=
  let mem := store st.mem writeOffset (Int.ofNat (flen ||| 1))
  let mem := store mem (writeOffset + 4) (Int.ofNat msg.CodegenTypeIndex)
  let mem := store mem (writeOffset + 8) (Int.ofNat (msg.CodegenTypeHash % MOD))
  let mem := store mem (writeOffset + 12) (Int.ofNat (msg.CodegenTypeHash / MOD))
  let mem := writeWords mem (writeOffset + 16) msg.words (msg.SerializedSize / 4)
  let mem := store mem writeOffset (Int.ofNat flen)
  { st with mem := mem }

/-- A 16-byte message (header only, empty serialized payload). -/
def msgA : Message := ⟨5, 1001, 0, fun _ => 0⟩

/-- A 24-byte message (8 bytes of payload). -/
def msgB : Message := ⟨5, 1001, 8, fun _ => 7⟩

/-- A 92-byte message (76 bytes of payload). -/
def msgC : Message := ⟨6, 2002, 76, fun _ => 9⟩

/-!
A concrete execution of a 128-byte channel (margin 112), built only from
the operations above, i.e. a legal interleaving of two writer threads
and one reader thread on a freshly constructed channel:

* construct the channel (`tr0`);
* send a 16-byte and a 24-byte message, dispatch both, reclaim
  (`tr1`–`tr5`: write = read = free = 40);
* a writer asks for a 92-byte frame: the acquired region `[40, 132)`
  overlaps the buffer end, so an empty (link) frame is written at offset
  40 and the acquire must be retried (`tr6`);
* the reader dispatches the link frame, a writer reclaims it
  (`tr7`, `tr8`: read = free = 132);
* the retried acquire returns offset `132 % 128 = 4` for the real
  92-byte frame, and its body is written (`tr9`, `tr10`:
  write = 224, free = 132).
-/

def tr0 : ChannelState := (MkSharedChannel 128 4 8 zeroChannel).getD junkChannel

def tr1 : ChannelState := (SendMessage 128 msgA 4 4 4 tr0).stateD junkChannel

def tr2 : ChannelState := (WaitAndDispatchFrame 128 10 tr1).state

def tr3 : ChannelState := (SendMessage 128 msgB 4 4 4 tr2).stateD junkChannel

def tr4 : ChannelState := (WaitAndDispatchFrame 128 10 tr3).state

def tr5 : ChannelState := (AdvanceFreePosition 128 4 tr4).getD junkChannel

def tr6iter : IterResult := AcquireWriteRegionForFrameIter 128 92 4 4 tr5

def tr6 : ChannelState := tr6iter.stateD junkChannel

def tr7 : ChannelState := (WaitAndDispatchFrame 128 10 tr6).state

def tr8 : ChannelState := (AdvanceFreePosition 128 4 tr7).getD junkChannel

def tr9iter : IterResult := AcquireWriteRegionForFrameIter 128 92 4 4 tr8

def tr9 : ChannelState := tr9iter.stateD junkChannel

def tr10 : ChannelState := WriteFrameBody msgC tr9iter.offsetD tr9iter.lengthD tr9

/-- The state after one more successful `AcquireRegionForWrite` CAS for a
16-byte frame on `tr10` (the acquire at the head of sending another
16-byte message). -/
def tr11 : ChannelState :=
  match AcquireStep 128 16 tr10 with
  | some (_, _, st) => st
  | none => junkChannel

/-- A 112-byte message (96 bytes of payload): on a 128-byte channel its
frame fills the whole margin. -/
def msgFull : Message := ⟨5, 1001, 96, fun _ => 0⟩

def CreateOrUpdateResult.isCreated : CreateOrUpdateResult → Bool
  | .created _ _ => true
  | _ => false

def CreateOrUpdateResult.isExisting : CreateOrUpdateResult → Bool
  | .existing _ _ => true
  | _ => false

/-- An empty placeholder dictionary, used as the default of projections. -/
def junkDict : SharedConfigDictionary :=
  ⟨fun _ => 0, 0, ⟨0, 0, 0, 0, 0⟩, fun _ => 0, fun _ => ⟨0, 0, 0, 0⟩⟩

/-- A placeholder component config, used as the default of projections. -/
def junkComponentConfig : ComponentConfig := ⟨0, 0, 0, none⟩

def CreateOrUpdateResult.dictD : CreateOrUpdateResult → SharedConfigDictionary
  | .existing d _ => d
  | .created d _ => d
  | _ => junkDict

def CreateOrUpdateResult.ccD : CreateOrUpdateResult → ComponentConfig
  | .existing _ cc => cc
  | .created _ cc => cc
  | _ => junkComponentConfig

/-- A small empty dictionary (4 slots, arena free offset 64) for
exercising `CreateOrUpdateFromInSharedConfigDictionary`. -/
def emptyDict : SharedConfigDictionary :=
  ⟨fun _ => 0, 4, ⟨0, 4096, 64, 0, 0⟩, fun _ => 0, fun _ => ⟨0, 0, 0, 0⟩⟩

/-- A component config `{key = 1, payload = 100}` of codegen type 7. -/
def ccFirst : ComponentConfig := ⟨7, 1, 100, none⟩

/-- The same key with a different default payload (200). -/
def ccSecond : ComponentConfig := ⟨7, 1, 200, none⟩

/-! ## Arithmetic helper lemmas for the 32-bit position model -/

theorem MOD_pos : 0 < MOD := by decide

theorem add32_lt (a b : Nat) : add32 a b < MOD :=
  Nat.mod_lt _ MOD_pos

theorem add32_assoc (a b c : Nat) : add32 (add32 a b) c = add32 a (b + c) := by
  unfold add32
  rw [Nat.mod_add_mod, Nat.add_assoc]

theorem add32_zero (a : Nat) (ha : a < MOD) : add32 a 0 = a := by
  unfold add32
  rw [Nat.add_zero, Nat.mod_eq_of_lt ha]

theorem add32_ne_self (a t : Nat) (ha : a < MOD) (h0 : 0 < t) (ht : t < MOD) :
    add32 a t ≠ a := by
  intro h
  have hmod : (a + t) % MOD = (a + 0) % MOD := by
    rw [Nat.add_zero, Nat.mod_eq_of_lt ha]; exact h
  have : t % MOD = 0 % MOD := Nat.ModEq.add_left_cancel' a hmod
  rw [Nat.mod_eq_of_lt ht, Nat.zero_mod] at this
  omega

theorem sub32_of_le (a b : Nat) (hb : b ≤ a) (ha : a < MOD) :
    sub32 a b = a - b := by
  unfold sub32
  rw [Nat.mod_eq_of_lt ha, Nat.mod_eq_of_lt (lt_of_le_of_lt hb ha)]
  have h1 : a + (MOD - b) = (a - b) + MOD := by omega
  rw [h1, Nat.add_mod_right, Nat.mod_eq_of_lt (by omega)]

theorem sub32_mod_left (x fr : Nat) (hfr : fr < MOD) :
    sub32 (x % MOD) fr = (x + (MOD - fr)) % MOD := by
  unfold sub32
  rw [Nat.mod_mod x MOD, Nat.mod_eq_of_lt hfr, Nat.mod_add_mod]

theorem sub32_add32_add (w fr f adj : Nat) (hw : w < MOD) (hfr : fr < MOD) :
    sub32 (add32 (add32 w f) adj) fr = (sub32 w fr + (f + adj)) % MOD := by
  rw [add32_assoc]
  unfold add32
  rw [sub32_mod_left _ _ hfr]
  unfold sub32
  rw [Nat.mod_eq_of_lt hw, Nat.mod_eq_of_lt hfr, Nat.mod_add_mod]
  congr 1
  omega

/-! ## C10: channel construction unconditionally re-activates a
terminated channel -/

theorem AdvanceFreePosition_sync (size afuel : Nat) (st st' : ChannelState)
    (h : AdvanceFreePosition size afuel st = some st') :
    st'.sync.TerminateChannel = st.sync.TerminateChannel ∧
    st'.sync.WritePosition = st.sync.WritePosition ∧
    st'.sync.ReadPosition = st.sync.ReadPosition ∧
    st'.mem = st.mem := by
  simp only [AdvanceFreePosition] at h
  split at h
  · cases h
    exact ⟨rfl, rfl, rfl, rfl⟩
  · rcases Option.map_eq_some'.mp h with ⟨q, _, hq⟩
    subst hq
    exact ⟨rfl, rfl, rfl, rfl⟩

theorem InitializeChannel_clears_terminate (size afuel wfuel : Nat)
    (st st' : ChannelState)
    (h : InitializeChannel size afuel wfuel st = some st') :
    st'.sync.TerminateChannel = false := by
  simp only [InitializeChannel] at h
  rcases heq : AdvanceFreePosition size afuel (setTerminate st false) with _ | st1
  · rw [heq] at h; cases h
  · rw [heq] at h
    dsimp only at h
    rcases hw : InitWalkLoop size wfuel st1.mem st1.sync.FreePosition
        st1.sync.WritePosition with _ | mem'
    · rw [hw] at h; cases h
    · rw [hw] at h
      cases h
      have hsync := (AdvanceFreePosition_sync _ _ _ _ heq).1
      simpa [setRead, setTerminate] using hsync

/-- C10: every construction of a `SharedChannel` over a `ChannelSync`
block runs `InitializeChannel`, whose first store is
`TerminateChannel := false`; a channel that had been terminated is
therefore active again after any process attaches a channel object to
the same block. -/
theorem MkSharedChannel_reactivates (sizeParam afuel wfuel : Nat)
    (st : ChannelState)
    (hterm : st.sync.TerminateChannel = true)
    (hsome : (MkSharedChannel sizeParam afuel wfuel st).isSome = true) :
    ((MkSharedChannel sizeParam afuel wfuel st).getD junkChannel).sync.TerminateChannel
      = false := by
  rcases Option.isSome_iff_exists.mp hsome with ⟨st', h⟩
  rw [h]
  exact InitializeChannel_clears_terminate _ _ _ _ _ h

theorem MkSharedChannel_reactivates_witness :
    (setTerminate zeroChannel true).sync.TerminateChannel = true ∧
    ((MkSharedChannel 128 1 1 (setTerminate zeroChannel true)).getD
        junkChannel).sync.TerminateChannel = false :=
  ⟨by decide, MkSharedChannel_reactivates 128 1 1 _ (by decide) (by decide)⟩

/-! ## C7: `SharedMemoryMapView::CreateNew` on an existing name -/

/-- C7 (counterexample): with an object of size 100 already present
under the name, `CreateNew` does not fail with `AlreadyExists` and does
not leave the existing object in place — it unlinks the name first
(`shm_unlink` precedes the `O_EXCL` open) and installs a fresh object of
the requested size. -/
theorem CreateNew_existing_counterexample :
    (fun n => if n = "A" then some 100 else none : ShmNamespace) "A" = some 100 ∧
    (CreateNew (fun n => if n = "A" then some 100 else none) "A" 64).isAlreadyExists
      = false ∧
    (CreateNew (fun n => if n = "A" then some 100 else none) "A" 64).names "A"
      = some 64 := by
  refine ⟨by decide, by decide, by decide⟩

/-- C7 (amended): `CreateNew(name, size)` never fails with
`AlreadyExists`; it removes any existing object under `name`
(`shm_unlink` first) and creates a fresh one of the requested size. -/
theorem CreateNew_replaces (fs : ShmNamespace) (name : String) (memSize : Nat) :
    (CreateNew fs name memSize).isAlreadyExists = false ∧
    (CreateNew fs name memSize).names name = some memSize := by
  unfold CreateNew shmOpenExcl shmUnlink
  simp [MapMemoryView, CreateNewResult.isAlreadyExists, CreateNewResult.names]

/-! ## C8: the arena allocator's out-of-memory condition -/

/-- C8 (counterexample): with `FreeOffset = 64` and
`end_offset = FirstAllocationOffset + AllocationBlockSize = 128`, an
allocation of 56 bytes fails in the source
(`64 + (56 + 8) >= 128`, the unrounded size with `>=`), while the
claim's condition `free_offset + rounded_size > end_offset`
(`64 + 64 > 128`) says it must succeed. -/
theorem AllocateInMemoryRegion_counterexample :
    (AllocateInMemoryRegion ⟨0, 128, 64, 0, 0⟩ (fun _ => 0) 56).isNone = true ∧
    ¬ claimedAllocFailure ⟨0, 128, 64, 0, 0⟩ 56 := by
  refine ⟨by decide, by decide⟩

/-- C8 (amended): `AllocateInMemoryRegion` fails with `E_OUTOFMEMORY`
exactly when `free_offset + (size + sizeof(AllocationEntry)) >=
end_offset` — the unrounded size, with `>=` rather than `>`; on success
it returns `free_offset + sizeof(AllocationEntry)` (the offset just past
the entry header) and advances `free_offset` by
`align<64>(size + sizeof(AllocationEntry))`. -/
theorem AllocateInMemoryRegion_characterization (allocator : ArenaAllocator)
    (rmem : RegionMem) (size : Nat) :
    match AllocateInMemoryRegion allocator rmem size with
    | none =>
        allocator.AllocationBlockSize + allocator.FirstAllocationOffset ≤
          allocator.FreeOffset + (size + AllocationEntrySize)
    | some (a', _, offset) =>
        allocator.FreeOffset + (size + AllocationEntrySize) <
          allocator.AllocationBlockSize + allocator.FirstAllocationOffset ∧
        offset = allocator.FreeOffset + AllocationEntrySize ∧
        a'.FreeOffset = allocator.FreeOffset + align 64 (size + AllocationEntrySize) ∧
        a'.AllocationCount = allocator.AllocationCount + 1 := by
  by_cases hc : allocator.AllocationBlockSize + allocator.FirstAllocationOffset ≤
      allocator.FreeOffset + (size + AllocationEntrySize)
  · simp only [AllocateInMemoryRegion, if_pos hc]
    exact hc
  · simp only [AllocateInMemoryRegion, if_neg hc]
    exact ⟨by omega, trivial, trivial, trivial⟩

/-! ## C1: the write-acquire position invariant -/

/-- C1 (counterexample): a state reached from a freshly constructed
128-byte channel by a legal interleaving of sends, dispatches and
free-reclaims (`tr10`: `write = 224`, `free = 132`,
`write - free = 92 ≤ 112 = buffer_size - sizeof(FrameHeader)`), on which
one more successful `AcquireRegionForWrite` CAS for a 16-byte frame
extends the frame into the margin and leaves
`write - free = 124 > 112`: the claimed bound is not preserved. -/
theorem AcquireStep_margin_bound_counterexample :
    sub32 tr10.sync.WritePosition tr10.sync.FreePosition ≤ 128 - FrameHeaderSize ∧
    (AcquireStep 128 16 tr10).isSome = true ∧
    sub32 tr11.sync.WritePosition tr11.sync.FreePosition = 124 ∧
    ¬ (124 ≤ 128 - FrameHeaderSize) := by
  refine ⟨by decide, by decide, by decide, by decide⟩

/-- C1 (amended): what a successful `AcquireRegionForWrite` CAS
guarantees, for any requested frame length up to the margin, is
`write - free < buffer_size` (the margin-extension path can exceed
`buffer_size - sizeof(FrameHeader)` by up to
`sizeof(FrameHeader) - 4`). -/
theorem AcquireStep_write_sub_free_lt_size (size f : Nat) (st : ChannelState)
    (hsize : 32 ≤ size) (hmod : size ≤ MOD)
    (hw : st.sync.WritePosition < MOD) (hfr : st.sync.FreePosition < MOD)
    (hf : f ≤ size - FrameHeaderSize)
    (hsome : (AcquireStep size f st).isSome = true) :
    sub32 (((AcquireStep size f st).getD (0, 0, junkChannel)).2.2.sync.WritePosition)
      (((AcquireStep size f st).getD (0, 0, junkChannel)).2.2.sync.FreePosition)
      < size := by
  have hM : MOD = 4294967296 := by decide
  rcases heq : AcquireStep size f st with _ | ⟨off, flen, st'⟩
  · rw [heq] at hsome; simp at hsome
  · simp only [AcquireStep] at heq
    split at heq
    case isFalse => cases heq
    case isTrue hc =>
      have hszpos : 0 < size := by omega
      set w := st.sync.WritePosition with hwdef
      set fr := st.sync.FreePosition with hfrdef
      set margin := size - FrameHeaderSize with hmdef
      have hmargin_lt : margin < MOD := by
        simp only [hmdef, FrameHeaderSize]; omega
      have hc' : sub32 w fr < margin - f := by
        rw [sub32_of_le margin f hf hmargin_lt] at hc; exact hc
      set nwo := add32 w f % size with hnwo
      have hnwo_lt : nwo < size := Nat.mod_lt _ hszpos
      by_cases hadjc : margin ≤ nwo
      · rw [if_pos hadjc] at heq
        cases heq
        simp only [Option.getD_some, setWrite]
        rw [sub32_add32_add w fr f (size - nwo) hw hfr]
        have hle : sub32 w fr + (f + (size - nwo)) < size := by
          have h1 : size - nwo ≤ size - margin := by omega
          simp only [hmdef, FrameHeaderSize] at hc' h1 hf ⊢
          omega
        rw [Nat.mod_eq_of_lt (by omega)]
        exact hle
      · rw [if_neg hadjc] at heq
        cases heq
        simp only [Option.getD_some, setWrite]
        rw [sub32_add32_add w fr f 0 hw hfr]
        have hle : sub32 w fr + (f + 0) < size := by
          simp only [hmdef, FrameHeaderSize] at hc' hf ⊢
          omega
        rw [Nat.mod_eq_of_lt (by omega)]
        exact hle

theorem AcquireStep_write_sub_free_lt_size_witness :
    (32 ≤ 128 ∧ (128 : Nat) ≤ MOD ∧ tr10.sync.WritePosition < MOD ∧
      tr10.sync.FreePosition < MOD ∧ 16 ≤ 128 - FrameHeaderSize ∧
      (AcquireStep 128 16 tr10).isSome = true) ∧
    sub32 (((AcquireStep 128 16 tr10).getD (0, 0, junkChannel)).2.2.sync.WritePosition)
      (((AcquireStep 128 16 tr10).getD (0, 0, junkChannel)).2.2.sync.FreePosition)
      < 128 :=
  ⟨⟨by decide, by decide, by decide, by decide, by decide, by decide⟩,
    AcquireStep_write_sub_free_lt_size 128 16 tr10 (by decide) (by decide)
      (by decide) (by decide) (by decide) (by decide)⟩

/-! ## C2: frames never straddle the buffer end; where the real frame
lands after a filler -/

theorem AcquireStep_shape (size f : Nat) (st : ChannelState)
    (off flen : Nat) (st' : ChannelState)
    (h : AcquireStep size f st = some (off, flen, st')) :
    off = st.sync.WritePosition % size ∧
    ∃ adj, flen = f + adj ∧
      st'.sync.WritePosition = add32 (add32 st.sync.WritePosition f) adj ∧
      st'.sync.FreePosition = st.sync.FreePosition ∧
      st'.mem = st.mem := by
  simp only [AcquireStep] at h
  split at h
  case isFalse => cases h
  case isTrue hc =>
    cases h
    exact ⟨rfl, _, rfl, rfl, rfl, rfl⟩

/-- Every `acquired` result of the `AcquireRegionForWrite` loop comes
out of a successful `AcquireStep` on some intermediate state. -/
theorem AcquireRegionForWrite_acquired (size f : Nat) :
    ∀ (ifuel afuel : Nat) (st : ChannelState) (off flen : Nat)
      (st' : ChannelState),
    AcquireRegionForWrite size f ifuel afuel st = .acquired off flen st' →
    ∃ st₀, AcquireStep size f st₀ = some (off, flen, st') := by
  intro ifuel
  induction ifuel with
  | zero => intro afuel st off flen st' h; cases h
  | succ n ih =>
    intro afuel st off flen st' h
    simp only [AcquireRegionForWrite] at h
    rcases heq : AcquireStep size f st with _ | ⟨⟨o, fl, s⟩⟩
    · rw [heq] at h
      dsimp only at h
      split at h
      · cases h
      · rcases hadv : AdvanceFreePosition size afuel st with _ | st1
        · rw [hadv] at h; cases h
        · rw [hadv] at h
          dsimp only at h
          exact ih afuel st1 off flen st' h
    · rw [heq] at h
      dsimp only at h
      cases h
      exact ⟨st, heq⟩

/-- C2 (amended): a region returned by `AcquireWriteRegionForFrame` for
the real frame always satisfies `offset + frame_length ≤ buffer_size`
(the real frame never straddles the physical end); when the acquired
region would straddle it, an empty frame with `CodegenTypeIndex = 0` and
the acquired length is written at the acquired offset — its span runs
past the physical end — and the real frame then begins at
`(offset + frame_length) mod buffer_size`, which need not be 0. -/
theorem AcquireWriteRegionForFrameIter_characterization
    (size expected afuel ifuel : Nat) (st : ChannelState)
    (hdvd : size ∣ MOD) :
    match AcquireWriteRegionForFrameIter size expected afuel ifuel st with
    | .done off flen _ => off + flen ≤ size
    | .fillerWritten off flen st' =>
        size < off + flen ∧
        st'.mem off = Int.ofNat flen ∧ st'.mem (off + 4) = 0 ∧
        st'.sync.WritePosition % size = (off + flen) % size
    | .terminated _ => True
    | .outOfFuel => True := by
  unfold AcquireWriteRegionForFrameIter
  rcases hacq : AcquireRegionForWrite size expected ifuel afuel st
    with ⟨off, flen, st'⟩ | st' | _
  · rcases AcquireRegionForWrite_acquired size expected ifuel afuel st off flen st' hacq
      with ⟨st₀, hstep⟩
    rcases AcquireStep_shape size expected st₀ off flen st' hstep
      with ⟨hoff, adj, hflen, hwp, _, _⟩
    dsimp only
    by_cases hover : size < off + flen
    · rw [if_pos hover]
      refine ⟨hover, ?_, ?_, ?_⟩
      · simp [store]
      · simp [store]
      · rw [hwp, hoff, hflen, add32_assoc]
        unfold add32
        rw [Nat.mod_mod_of_dvd _ hdvd, Nat.mod_add_mod]
    · rw [if_neg hover]
      omega
  · trivial
  · trivial

/-- C2 (counterexample): on the concrete 128-byte-channel execution
above, the region acquired for a 92-byte frame at offset 40 straddles
the buffer end (`40 + 92 > 128`); the empty filler frame
(`CodegenTypeIndex = 0`, length 92) is written at offset 40 — spanning
past the physical end — and after the filler is dispatched and
reclaimed, the retried acquire places the real frame at offset
`132 % 128 = 4`, not at offset 0. -/
theorem fillerFrame_offset_counterexample :
    tr6iter.isFillerWritten = true ∧
    tr6iter.offsetD = 40 ∧ tr6iter.lengthD = 92 ∧
    128 < 40 + 92 ∧
    tr6.mem 40 = 92 ∧ tr6.mem 44 = 0 ∧
    tr9iter.isDone = true ∧ tr9iter.offsetD = 4 ∧ (4 : Nat) ≠ 0 := by
  refine ⟨by decide, by decide, by decide, by decide, by decide, by decide,
    by decide, by decide, by decide⟩

theorem AcquireWriteRegionForFrameIter_characterization_witness :
    ((128 : Nat) ∣ MOD) ∧
    match AcquireWriteRegionForFrameIter 128 92 4 4 tr8 with
    | .done off flen _ => off + flen ≤ 128
    | .fillerWritten off flen st' =>
        128 < off + flen ∧
        st'.mem off = Int.ofNat flen ∧ st'.mem (off + 4) = 0 ∧
        st'.sync.WritePosition % 128 = (off + flen) % 128
    | .terminated _ => True
    | .outOfFuel => True :=
  ⟨by decide,
    AcquireWriteRegionForFrameIter_characterization 128 92 4 4 tr8
      (by decide)⟩

/-! ## C6: sends on a terminated channel -/

/-- C6 (counterexample): on a freshly constructed (empty) 128-byte
channel whose `TerminateChannel` flag has been set, `SendMessage` does
not drop the message: the free-space check passes, the frame is written
at offset 0 and `WritePosition` advances to 16.  (This is what lets
`MlosContext::TerminateControlChannel` deliver its
`TerminateReaderThreadRequest` after setting the flag.) -/
theorem SendMessage_terminated_counterexample :
    (setTerminate tr0 true).sync.TerminateChannel = true ∧
    (SendMessage 128 msgA 4 4 4 (setTerminate tr0 true)).isSent = true ∧
    ((SendMessage 128 msgA 4 4 4 (setTerminate tr0 true)).stateD
        junkChannel).sync.WritePosition = 16 ∧
    ((SendMessage 128 msgA 4 4 4 (setTerminate tr0 true)).stateD
        junkChannel).mem 0 = 16 := by
  refine ⟨by decide, by decide, by decide, by decide⟩

/-- C6 (amended): a send on a terminated channel is dropped only when
the channel does not have room for the frame: when the space check
fails and `TerminateChannel` is set, `AcquireRegionForWrite` returns the
`uint32_t::max` sentinel and `SendMessage` returns with the channel
state untouched.  When there is room, the message is written normally
even though the flag is set. -/
theorem SendMessage_dropped_when_full_and_terminated (size : Nat)
    (msg : Message) (ofuel afuel ifuel : Nat) (st : ChannelState)
    (hterm : st.sync.TerminateChannel = true)
    (hfull : ¬ sub32 st.sync.WritePosition st.sync.FreePosition <
      sub32 (size - FrameHeaderSize)
        (align 4 (FrameHeaderSize + msg.SerializedSize))) :
    SendMessage size msg (ofuel + 1) afuel (ifuel + 1) st = .dropped st := by
  have hstep : AcquireStep size (align 4 (FrameHeaderSize + msg.SerializedSize)) st
      = none := by
    simp only [AcquireStep, if_neg hfull]
  simp only [SendMessage, AcquireWriteRegionForFrame,
    AcquireWriteRegionForFrameIter, AcquireRegionForWrite, hstep, hterm,
    if_pos]

theorem SendMessage_dropped_when_full_and_terminated_witness :
    ((setTerminate zeroChannel true).sync.TerminateChannel = true ∧
      ¬ sub32 (setTerminate zeroChannel true).sync.WritePosition
          (setTerminate zeroChannel true).sync.FreePosition <
        sub32 (128 - FrameHeaderSize)
          (align 4 (FrameHeaderSize + msgFull.SerializedSize))) ∧
    SendMessage 128 msgFull 4 4 4 (setTerminate zeroChannel true) =
      .dropped (setTerminate zeroChannel true) :=
  ⟨⟨by decide, by decide⟩,
    SendMessage_dropped_when_full_and_terminated 128 msgFull 3 4 3
      (setTerminate zeroChannel true) (by decide) (by decide)⟩

/-! ## C4: the read-position CAS gives a frame to at most one reader -/

theorem ReaderStep_invariant (s s' : ReadersState) (h : ReaderStep s s')
    (hinv : (∀ c ∈ s.claims, c.2 < s.ReadPosition) ∧
      s.claims.Pairwise (fun a b => a.2 ≠ b.2)) :
    (∀ c ∈ s'.claims, c.2 < s'.ReadPosition) ∧
      s'.claims.Pairwise (fun a b => a.2 ≠ b.2) := by
  rcases h with ⟨reader, frameLength, s, hlen⟩
  have hadv : 1 ≤ (frameLength - frameLength.emod 2).toNat := by
    rcases Int.emod_two_eq_zero_or_one frameLength with h2 | h2 <;>
      rw [show frameLength.emod 2 = frameLength % 2 from rfl, h2] <;> omega
  constructor
  · intro c hc
    rcases List.mem_cons.mp hc with hh | ht
    · subst hh
      simp only
      omega
    · have := hinv.1 c ht
      simp only
      omega
  · refine List.pairwise_cons.mpr ⟨?_, hinv.2⟩
    intro b hb
    have := hinv.1 b hb
    simp only
    omega

/-- C4: in any interleaved execution of any number of readers, the
successful compare-and-swaps on `ReadPosition` claim pairwise distinct
frames: no frame is ever claimed — and hence dispatched — by two
readers. -/
theorem WaitForFrame_claims_unique (s₀ s : ReadersState)
    (h0 : s₀.claims = [])
    (h : Relation.ReflTransGen ReaderStep s₀ s) :
    s.claims.Pairwise (fun a b => a.2 ≠ b.2) := by
  suffices hinv : (∀ c ∈ s.claims, c.2 < s.ReadPosition) ∧
      s.claims.Pairwise (fun a b => a.2 ≠ b.2) from hinv.2
  induction h with
  | refl =>
    rw [h0]
    refine ⟨?_, List.Pairwise.nil⟩
    intro c hc
    cases hc
  | tail _ hstep ih => exact ReaderStep_invariant _ _ hstep ih

theorem WaitForFrame_claims_unique_witness :
    (⟨0, []⟩ : ReadersState).claims = [] ∧
    (⟨36, [(1, 16), (0, 0)]⟩ : ReadersState).claims.Pairwise
      (fun a b => a.2 ≠ b.2) := by
  refine ⟨rfl, ?_⟩
  have step1 : ReaderStep ⟨0, []⟩ ⟨16, [(0, 0)]⟩ :=
    ReaderStep.claim 0 16 ⟨0, []⟩ (by decide)
  have step2 : ReaderStep ⟨16, [(0, 0)]⟩ ⟨36, [(1, 16), (0, 0)]⟩ :=
    ReaderStep.claim 1 20 ⟨16, [(0, 0)]⟩ (by decide)
  exact WaitForFrame_claims_unique ⟨0, []⟩ ⟨36, [(1, 16), (0, 0)]⟩ rfl
    (Relation.ReflTransGen.tail (Relation.ReflTransGen.tail
      Relation.ReflTransGen.refl step1) step2)

/-! ## C5: reclamation advances the free position to the read position -/

theorem sumAbs_cons (l : Int) (ls : List Int) :
    sumAbs (l :: ls) = l.natAbs + sumAbs ls := by
  simp [sumAbs]

theorem frameSpecAbs_cons (size p : Nat) (l : Int) (ls : List Int) :
    frameSpecAbs size p (l :: ls) =
      (p % size, l) :: frameSpecAbs size (add32 p l.natAbs) ls := rfl

theorem AdvanceFreeLoop_complete (size : Nat) (mem : Mem) (read : Nat) :
    ∀ (ls : List Int) (free fuel : Nat),
    ls.length < fuel →
    free < MOD →
    read = add32 free (sumAbs ls) →
    sumAbs ls < MOD →
    (∀ l ∈ ls, l < 0) →
    (∀ ol ∈ frameSpecAbs size free ls, mem ol.1 = ol.2) →
    AdvanceFreeLoop size mem read fuel free = some read := by
  intro ls
  induction ls with
  | nil =>
    intro free fuel hfuel hfree hread _ _ _
    rcases fuel with _ | f
    · omega
    · rw [hread]
      simp only [sumAbs, List.map_nil, List.sum_nil, add32_zero free hfree,
        AdvanceFreeLoop, if_pos rfl]
      simp
  | cons l ls ih =>
    intro free fuel hfuel hfree hread hsum hneg hmem
    rcases fuel with _ | f
    · omega
    · have hl : l < 0 := hneg l (List.mem_cons_self l ls)
      have hlpos : 0 < l.natAbs := by omega
      have htot : sumAbs (l :: ls) < MOD := hsum
      rw [sumAbs_cons] at htot hread
      have hfree_ne : free ≠ read := by
        rw [hread]
        exact (add32_ne_self free (l.natAbs + sumAbs ls) hfree (by omega)
          (by omega)).symm
      have hmem0 : mem (free % size) = l := by
        refine hmem (free % size, l) ?_
        rw [frameSpecAbs_cons]
        exact List.mem_cons_self _ _
      simp only [AdvanceFreeLoop, if_neg hfree_ne, hmem0,
        if_neg (by omega : ¬ (0 : Int) ≤ l)]
      refine ih (add32 free l.natAbs) f (by simpa using hfuel) (add32_lt _ _)
        ?_ (by omega) (fun l' hl' => hneg l' (List.mem_cons_of_mem l hl'))
        (fun ol hol => hmem ol ?_)
      · rw [hread, add32_assoc]
      · rw [frameSpecAbs_cons]
        exact List.mem_cons_of_mem _ hol

/-- C5: if every frame between `FreePosition` and `ReadPosition` is
reclaim-ready (negative stored length, the lengths partitioning that
run of the ring), a single sequential `AdvanceFreePosition` call
terminates with `FreePosition` equal to `ReadPosition`. -/
theorem AdvanceFreePosition_reclaims (size afuel : Nat) (st : ChannelState)
    (ls : List Int)
    (hfuel : ls.length < afuel)
    (hfree : st.sync.FreePosition < MOD)
    (hread : st.sync.ReadPosition = add32 st.sync.FreePosition (sumAbs ls))
    (hsum : sumAbs ls < MOD)
    (hneg : ∀ l ∈ ls, l < 0)
    (hmem : ∀ ol ∈ frameSpecAbs size st.sync.FreePosition ls, st.mem ol.1 = ol.2) :
    AdvanceFreePosition size afuel st = some (setFree st st.sync.ReadPosition) := by
  simp only [AdvanceFreePosition]
  by_cases hc : st.sync.FreePosition = st.sync.ReadPosition
  · rw [if_pos hc, ← hc]
    rfl
  · rw [if_neg hc,
      AdvanceFreeLoop_complete size st.mem st.sync.ReadPosition ls
        st.sync.FreePosition afuel hfuel hfree hread hsum hneg hmem]
    rfl

theorem AdvanceFreePosition_reclaims_witness :
    (([-16, -20] : List Int).length < 3 ∧
      (⟨⟨40, 36, 0, 0, 0, false⟩,
        store (store (fun _ => 0) 0 (-16)) 16 (-20)⟩ : ChannelState).sync.FreePosition
        < MOD ∧
      (36 : Nat) = add32 0 (sumAbs [-16, -20]) ∧
      sumAbs [-16, -20] < MOD ∧
      (∀ l ∈ ([-16, -20] : List Int), l < 0) ∧
      (∀ ol ∈ frameSpecAbs 128 0 [(-16 : Int), -20],
        (store (store (fun _ => (0 : Int)) 0 (-16)) 16 (-20)) ol.1 = ol.2)) ∧
    AdvanceFreePosition 128 3
      (⟨⟨40, 36, 0, 0, 0, false⟩,
        store (store (fun _ => 0) 0 (-16)) 16 (-20)⟩ : ChannelState) =
      some (setFree
        (⟨⟨40, 36, 0, 0, 0, false⟩,
          store (store (fun _ => 0) 0 (-16)) 16 (-20)⟩ : ChannelState) 36) :=
  ⟨⟨by decide, by decide, by decide, by decide, by decide, by decide⟩,
    AdvanceFreePosition_reclaims 128 3 _ [-16, -20] (by decide) (by decide)
      (by decide) (by decide) (by decide) (by decide)⟩

/-! ## C3: restart recovery (`InitializeChannel`) -/

theorem store_ne {α : Type} (m : Nat → α) (i x : Nat) (v : α) (h : x ≠ i) :
    store m i v x = m x := by
  simp [store, h]

theorem store_self {α : Type} (m : Nat → α) (i : Nat) (v : α) :
    store m i v i = v := by
  simp [store]

theorem clearWords_outside (k : Nat) : ∀ (mem : Mem) (off x : Nat),
    (x < off ∨ off + 4 * k ≤ x) → clearWords mem off k x = mem x := by
  induction k with
  | zero => intro mem off x _; rfl
  | succ n ih =>
    intro mem off x hx
    simp only [clearWords]
    rw [ih (store mem off 0) (off + 4) x (by omega)]
    exact store_ne mem off x 0 (by omega)

theorem clearWords_inside (k : Nat) : ∀ (mem : Mem) (off j : Nat), j < k →
    clearWords mem off k (off + 4 * j) = 0 := by
  induction k with
  | zero => intro mem off j h; omega
  | succ n ih =>
    intro mem off j hj
    simp only [clearWords]
    rcases Nat.eq_zero_or_pos j with h0 | hpos
    · subst h0
      rw [clearWords_outside n _ (off + 4) (off + 4 * 0) (by omega)]
      simpa using store_self mem off 0
    · have hsp : off + 4 * j = (off + 4) + 4 * (j - 1) := by omega
      rw [hsp]
      exact ih (store mem off 0) (off + 4) (j - 1) (by omega)

theorem ClearPayload_outside (mem : Mem) (off e x : Nat)
    (hx : x < off + 4 ∨ off + e ≤ x) :
    ClearPayload mem off e x = mem x := by
  unfold ClearPayload
  apply clearWords_outside
  rcases Nat.lt_or_ge x (off + 4) with h | h
  · left; exact h
  · right
    have h4 : 4 * ((e - 4) / 4) ≤ e - 4 := by
      have := Nat.div_mul_le_self (e - 4) 4
      omega
    omega

theorem ClearPayload_inside (mem : Mem) (off e k : Nat)
    (hk : 1 ≤ k) (hke : 4 * k < e) (h4 : e % 4 = 0) :
    ClearPayload mem off e (off + 4 * k) = 0 := by
  unfold ClearPayload
  have hsp : off + 4 * k = (off + 4) + 4 * (k - 1) := by omega
  rw [hsp]
  apply clearWords_inside
  omega

/-- The memory after the walk's reset of one dirty frame
(`ClearPayload` then the length store), outside that frame's span, is
unchanged. -/
theorem dirtyReset_outside (mem : Mem) (off e x : Nat)
    (hx : x < off ∨ off + e ≤ x) (hepos : 0 < e) :
    store (ClearPayload mem off e) off (e : Int) x = mem x := by
  rw [store_ne _ _ _ _ (by omega : x ≠ off)]
  exact ClearPayload_outside mem off e x (by omega)

theorem sumEff_cons (l : Int) (ls : List Int) :
    sumEff (l :: ls) = effLen l + sumEff ls := by
  simp [sumEff]

theorem frameSpec_cons (size p : Nat) (l : Int) (ls : List Int) :
    frameSpec size p (l :: ls) =
      (p % size, l) :: frameSpec size (add32 p (effLen l)) ls := rfl

theorem frameSpec_mem_snd (size : Nat) :
    ∀ (ls : List Int) (p : Nat) (ol : Nat × Int),
    ol ∈ frameSpec size p ls → ol.2 ∈ ls := by
  intro ls
  induction ls with
  | nil => intro p ol h; cases h
  | cons l ls ih =>
    intro p ol h
    rw [frameSpec_cons] at h
    rcases List.mem_cons.mp h with hh | ht
    · subst hh; exact List.mem_cons_self _ _
    · exact List.mem_cons_of_mem _ (ih _ ol ht)

theorem spanDisjoint_not_inSpan (a b : Nat × Int) (x : Nat)
    (hd : spanDisjoint a b) (hx : inSpan x a) : ¬ inSpan x b := by
  unfold spanDisjoint at hd
  unfold inSpan at *
  omega

/-- The fix-up value computed by the walk for a length word `l`
(`abs` then clear the low bit) is `effLen l`. -/
theorem emod_two_eq_mod (a : Int) : a.emod 2 = a % 2 := rfl

theorem walk_lc (l : Int) :
    (if 0 < l then l else -l) - (if 0 < l then l else -l).emod 2 =
      (effLen l : Int) := by
  rw [emod_two_eq_mod]
  unfold effLen
  split <;> omega

theorem walk_lc_toNat (l : Int) :
    ((if 0 < l then l else -l) - (if 0 < l then l else -l).emod 2).toNat =
      effLen l := by
  rw [walk_lc]
  exact Int.toNat_natCast _

/-- A clean length word (non-negative, even) advances the walk by
exactly its `effLen`. -/
theorem clean_toNat (l : Int) (h : ¬ (l < 0 ∨ l.emod 2 = 1)) :
    l.toNat = effLen l := by
  push_neg at h
  unfold effLen
  rcases Int.emod_two_eq_zero_or_one l with h2 | h2
  · omega
  · exact absurd h2 h.2

theorem InitWalkLoop_spec (size : Nat) :
    ∀ (ls : List Int) (mem : Mem) (free write fuel : Nat),
    ls.length < fuel →
    free < MOD →
    write = add32 free (sumEff ls) →
    sumEff ls < MOD →
    (∀ l ∈ ls, 0 < effLen l) →
    (∀ l ∈ ls, effLen l % 4 = 0) →
    (∀ ol ∈ frameSpec size free ls, mem ol.1 = ol.2) →
    (frameSpec size free ls).Pairwise spanDisjoint →
    ∃ mem', InitWalkLoop size fuel mem free write = some mem' ∧
      (∀ x, (∀ ol ∈ frameSpec size free ls, ¬ inSpan x ol) → mem' x = mem x) ∧
      (∀ ol ∈ frameSpec size free ls, initFrameResult mem mem' ol) := by
  intro ls
  induction ls with
  | nil =>
    intro mem free write fuel hfuel hfree hwrite hsum hpos h4 hmem hdisj
    rcases fuel with _ | f
    · omega
    · refine ⟨mem, ?_, fun x _ => rfl, fun ol hol => absurd hol (by simp [frameSpec])⟩
      rw [hwrite]
      simp only [sumEff, List.map_nil, List.sum_nil]
      rw [add32_zero free hfree]
      simp only [InitWalkLoop, if_pos rfl]
      simp
  | cons l ls ih =>
    intro mem free write fuel hfuel hfree hwrite hsum hpos h4 hmem hdisj
    rcases fuel with _ | f
    · omega
    · have hlmem : mem (free % size) = l := by
        refine hmem (free % size, l) ?_
        rw [frameSpec_cons]
        exact List.mem_cons_self _ _
      have hel : 0 < effLen l := hpos l (List.mem_cons_self _ _)
      have hel4 : effLen l % 4 = 0 := h4 l (List.mem_cons_self _ _)
      have htot : sumEff (l :: ls) = effLen l + sumEff ls := sumEff_cons l ls
      have hne : free ≠ write := by
        rw [hwrite]
        exact (add32_ne_self free (sumEff (l :: ls)) hfree (by omega) hsum).symm
      rw [frameSpec_cons] at hmem hdisj
      have hdhead := (List.pairwise_cons.mp hdisj).1
      have hdtail := (List.pairwise_cons.mp hdisj).2
      have hwrite' : write = add32 (add32 free (effLen l)) (sumEff ls) := by
        rw [hwrite, htot, add32_assoc]
      have hposT : ∀ l' ∈ ls, 0 < effLen l' :=
        fun l' h' => hpos l' (List.mem_cons_of_mem _ h')
      have h4T : ∀ l' ∈ ls, effLen l' % 4 = 0 :=
        fun l' h' => h4 l' (List.mem_cons_of_mem _ h')
      have hheadIn : ∀ y, inSpan y (free % size, l) →
          ∀ ol' ∈ frameSpec size (add32 free (effLen l)) ls, ¬ inSpan y ol' := by
        intro y hy ol' hol'
        exact spanDisjoint_not_inSpan (free % size, l) ol' y (hdhead ol' hol') hy
      by_cases hd : l < 0 ∨ l.emod 2 = 1
      · -- mid-write or already-processed frame: reset and clear
        have hstep : InitWalkLoop size (f + 1) mem free write =
            InitWalkLoop size f
              (store (ClearPayload mem (free % size) (effLen l)) (free % size)
                (effLen l : Int))
              (add32 free (effLen l)) write := by
          simp only [InitWalkLoop, if_neg hne, hlmem, if_pos hd]
          rw [walk_lc, Int.toNat_natCast]
        have hmem1 : ∀ ol ∈ frameSpec size (add32 free (effLen l)) ls,
            (store (ClearPayload mem (free % size) (effLen l)) (free % size)
              (effLen l : Int)) ol.1 = ol.2 := by
          intro ol hol
          have hol2 : ol.2 ∈ ls := frameSpec_mem_snd size ls _ ol hol
          have holpos : 0 < effLen ol.2 := hposT _ hol2
          have hdis : spanDisjoint (free % size, l) ol := hdhead ol hol
          rw [dirtyReset_outside _ _ _ _ ?_ hel]
          · exact hmem ol (List.mem_cons_of_mem _ hol)
          · unfold spanDisjoint at hdis
            simp only at hdis
            omega
        obtain ⟨mem', hloop, hout, hframes⟩ :=
          ih (store (ClearPayload mem (free % size) (effLen l)) (free % size)
              (effLen l : Int))
            (add32 free (effLen l)) write f (by simpa using hfuel)
            (add32_lt _ _) hwrite' (by omega) hposT h4T hmem1 hdtail
        have hspan : ∀ y, inSpan y (free % size, l) →
            mem' y = (store (ClearPayload mem (free % size) (effLen l))
              (free % size) (effLen l : Int)) y :=
          fun y hy => hout y (hheadIn y hy)
        refine ⟨mem', by rw [hstep]; exact hloop, ?_, ?_⟩
        · intro x hx
          rw [hout x (fun ol hol => hx ol (List.mem_cons_of_mem _ hol))]
          apply dirtyReset_outside _ _ _ _ ?_ hel
          have hxh : ¬ inSpan x (free % size, l) := hx _ (List.mem_cons_self _ _)
          unfold inSpan at hxh
          simp only at hxh
          omega
        · intro ol hol
          rcases List.mem_cons.mp hol with hh | ht
          · subst hh
            unfold initFrameResult
            simp only
            rw [if_pos hd]
            constructor
            · rw [hspan (free % size) (by unfold inSpan; simp only; omega)]
              exact store_self _ _ _
            · intro k hk1 hk2
              have hins : inSpan (free % size + 4 * k) (free % size, l) := by
                unfold inSpan; simp only; omega
              rw [hspan _ hins,
                store_ne _ _ _ _ (by omega : free % size + 4 * k ≠ free % size)]
              exact ClearPayload_inside mem (free % size) (effLen l) k hk1 hk2 hel4
          · have h1 := hframes ol ht
            have hol2 : ol.2 ∈ ls := frameSpec_mem_snd size ls _ ol ht
            have hdis : spanDisjoint (free % size, l) ol := hdhead ol ht
            unfold initFrameResult at h1 ⊢
            by_cases hdo : ol.2 < 0 ∨ ol.2.emod 2 = 1
            · rw [if_pos hdo] at h1 ⊢
              exact h1
            · rw [if_neg hdo] at h1 ⊢
              intro x hx
              rw [h1 x hx]
              apply dirtyReset_outside _ _ _ _ ?_ hel
              have := spanDisjoint_not_inSpan ol (free % size, l) x
                ?_ hx
              · unfold inSpan at this
                simp only at this
                omega
              · unfold spanDisjoint at hdis ⊢
                omega
      · -- complete frame: left untouched
        have hstep : InitWalkLoop size (f + 1) mem free write =
            InitWalkLoop size f mem (add32 free (effLen l)) write := by
          simp only [InitWalkLoop, if_neg hne, hlmem, if_neg hd]
          rw [clean_toNat l hd]
        obtain ⟨mem', hloop, hout, hframes⟩ :=
          ih mem (add32 free (effLen l)) write f (by simpa using hfuel)
            (add32_lt _ _) hwrite' (by omega) hposT h4T
            (fun ol hol => hmem ol (List.mem_cons_of_mem _ hol)) hdtail
        refine ⟨mem', by rw [hstep]; exact hloop, ?_, ?_⟩
        · intro x hx
          exact hout x (fun ol hol => hx ol (List.mem_cons_of_mem _ hol))
        · intro ol hol
          rcases List.mem_cons.mp hol with hh | ht
          · subst hh
            unfold initFrameResult
            simp only
            rw [if_neg hd]
            intro x hx
            exact hout x (hheadIn x hx)
          · exact hframes ol ht

/-- The general behavior of `AdvanceFreePosition`'s loop on a crash
state: it follows a run of reclaim-ready (negative) frames and stops at
the first position that either equals the snapshotted read position or
holds a non-negative length word — the latter is what a frame claimed by
a reader that died before `SignalFrameForCleanup` looks like. -/
theorem AdvanceFreeLoop_stops (size : Nat) (mem : Mem) (read : Nat) :
    ∀ (ls : List Int) (free fuel : Nat),
    ls.length < fuel →
    free < MOD →
    (∀ l ∈ ls, l < 0) →
    (∀ ol ∈ frameSpecAbs size free ls, mem ol.1 = ol.2) →
    (∀ a ∈ properSumsAbs ls, add32 free a ≠ read) →
    (add32 free (sumAbs ls) = read ∨
      0 ≤ mem ((add32 free (sumAbs ls)) % size)) →
    AdvanceFreeLoop size mem read fuel free = some (add32 free (sumAbs ls)) := by
  intro ls
  induction ls with
  | nil =>
    intro free fuel hfuel hfree hneg hmem hmid hstop
    rcases fuel with _ | f
    · omega
    · simp only [sumAbs, List.map_nil, List.sum_nil] at hstop ⊢
      rw [add32_zero _ hfree] at hstop ⊢
      by_cases hc : free = read
      · simp only [AdvanceFreeLoop, if_pos hc]
      · rcases hstop with h | h
        · exact absurd h hc
        · simp only [AdvanceFreeLoop, if_neg hc, if_pos h]
  | cons l ls ih =>
    intro free fuel hfuel hfree hneg hmem hmid hstop
    rcases fuel with _ | f
    · omega
    · have hl : l < 0 := hneg l (List.mem_cons_self _ _)
      have hfne : free ≠ read := by
        have h0 : (0 : Nat) ∈ properSumsAbs (l :: ls) := by
          simp [properSumsAbs]
        have := hmid 0 h0
        rwa [add32_zero _ hfree] at this
      have hmem0 : mem (free % size) = l := by
        refine hmem (free % size, l) ?_
        rw [frameSpecAbs_cons]
        exact List.mem_cons_self _ _
      have hq : add32 (add32 free l.natAbs) (sumAbs ls) =
          add32 free (sumAbs (l :: ls)) := by
        rw [add32_assoc, sumAbs_cons]
      simp only [AdvanceFreeLoop, if_neg hfne, hmem0,
        if_neg (by omega : ¬ (0 : Int) ≤ l)]
      rw [← hq]
      refine ih (add32 free l.natAbs) f (by simpa using hfuel) (add32_lt _ _)
        (fun l' h' => hneg l' (List.mem_cons_of_mem _ h'))
        (fun ol hol => hmem ol ?_) ?_ ?_
      · rw [frameSpecAbs_cons]
        exact List.mem_cons_of_mem _ hol
      · intro a ha
        have hmem' : a + l.natAbs ∈ properSumsAbs (l :: ls) := by
          simp only [properSumsAbs]
          exact List.mem_cons_of_mem _ (List.mem_map_of_mem _ ha)
        have h2 := hmid (a + l.natAbs) hmem'
        rw [add32_assoc, Nat.add_comm l.natAbs a]
        exact h2
      · rw [hq]
        exact hstop

/-- `AdvanceFreePosition` on a crash state: the reclaim-ready prefix is
freed and the free position stops at the first frame that is not
reclaim-ready (or at the read position). -/
theorem AdvanceFreePosition_stops (size afuel : Nat) (st : ChannelState)
    (ls : List Int)
    (hfuel : ls.length < afuel)
    (hfree : st.sync.FreePosition < MOD)
    (hneg : ∀ l ∈ ls, l < 0)
    (hmem : ∀ ol ∈ frameSpecAbs size st.sync.FreePosition ls, st.mem ol.1 = ol.2)
    (hmid : ∀ a ∈ properSumsAbs ls,
      add32 st.sync.FreePosition a ≠ st.sync.ReadPosition)
    (hstop : add32 st.sync.FreePosition (sumAbs ls) = st.sync.ReadPosition ∨
      0 ≤ st.mem ((add32 st.sync.FreePosition (sumAbs ls)) % size)) :
    AdvanceFreePosition size afuel st =
      some (setFree st (add32 st.sync.FreePosition (sumAbs ls))) := by
  simp only [AdvanceFreePosition]
  by_cases hc : st.sync.FreePosition = st.sync.ReadPosition
  · rw [if_pos hc]
    cases ls with
    | nil =>
      simp only [sumAbs, List.map_nil, List.sum_nil,
        add32_zero _ hfree]
      rfl
    | cons l ls =>
      exfalso
      refine hmid 0 (by simp [properSumsAbs]) ?_
      rw [add32_zero _ hfree]
      exact hc
  · rw [if_neg hc, AdvanceFreeLoop_stops size st.mem st.sync.ReadPosition ls
      st.sync.FreePosition afuel hfuel hfree hneg hmem hmid hstop]
    rfl

/-- C3: after `InitializeChannel` runs on any crash state — a run of
reclaim-ready (negative) frames from `FreePosition` up to a stop
position `q` (the read position itself, or the first frame whose length
word is non-negative: a frame claimed by a reader that died after its
`ReadPosition` CAS but before `SignalFrameForCleanup` is such a frame),
followed by arbitrary frames up to `WritePosition` — the read position
equals the free position (both at `q`, so a read position that had been
CASed past not-yet-cleaned frames is rolled back and those fully-written
frames are re-dispatched), and every frame between the free position and
the write position whose length word was negative or had the incomplete
bit set has been reset to `abs(length) & ~1` with its payload words
cleared, while every complete frame is untouched: no partially-written
frame survives as dispatchable mid-write state. -/
theorem InitializeChannel_recovers (size afuel wfuel : Nat)
    (st : ChannelState) (ls1 ls2 : List Int)
    (h1fuel : ls1.length < afuel)
    (hfree : st.sync.FreePosition < MOD)
    (h1neg : ∀ l ∈ ls1, l < 0)
    (h1mem : ∀ ol ∈ frameSpecAbs size st.sync.FreePosition ls1,
      st.mem ol.1 = ol.2)
    (h1mid : ∀ a ∈ properSumsAbs ls1,
      add32 st.sync.FreePosition a ≠ st.sync.ReadPosition)
    (h1stop : add32 st.sync.FreePosition (sumAbs ls1) = st.sync.ReadPosition ∨
      0 ≤ st.mem ((add32 st.sync.FreePosition (sumAbs ls1)) % size))
    (h2fuel : ls2.length < wfuel)
    (hwrite : st.sync.WritePosition =
      add32 (add32 st.sync.FreePosition (sumAbs ls1)) (sumEff ls2))
    (h2sum : sumEff ls2 < MOD)
    (h2pos : ∀ l ∈ ls2, 0 < effLen l)
    (h2al : ∀ l ∈ ls2, effLen l % 4 = 0)
    (h2mem : ∀ ol ∈ frameSpec size
      (add32 st.sync.FreePosition (sumAbs ls1)) ls2, st.mem ol.1 = ol.2)
    (h2disj : (frameSpec size (add32 st.sync.FreePosition (sumAbs ls1))
      ls2).Pairwise spanDisjoint) :
    ∃ st', InitializeChannel size afuel wfuel st = some st' ∧
      st'.sync.ReadPosition = st'.sync.FreePosition ∧
      st'.sync.FreePosition = add32 st.sync.FreePosition (sumAbs ls1) ∧
      st'.sync.WritePosition = st.sync.WritePosition ∧
      st'.sync.TerminateChannel = false ∧
      (∀ ol ∈ frameSpec size (add32 st.sync.FreePosition (sumAbs ls1)) ls2,
        initFrameResult st.mem st'.mem ol) := by
  have hadv : AdvanceFreePosition size afuel (setTerminate st false) =
      some (setFree (setTerminate st false)
        (add32 st.sync.FreePosition (sumAbs ls1))) :=
    AdvanceFreePosition_stops size afuel (setTerminate st false) ls1 h1fuel
      hfree h1neg h1mem h1mid h1stop
  obtain ⟨mem', hloop, hout, hframes⟩ :=
    InitWalkLoop_spec size ls2 st.mem
      (add32 st.sync.FreePosition (sumAbs ls1)) st.sync.WritePosition wfuel
      h2fuel (add32_lt _ _) hwrite h2sum h2pos h2al h2mem h2disj
  simp only [InitializeChannel]
  rw [hadv]
  simp only [setFree, setTerminate]
  rw [hloop]
  exact ⟨_, rfl, rfl, rfl, rfl, rfl, hframes⟩

theorem InitializeChannel_recovers_witness :
    (([-16] : List Int).length < 2 ∧
      (⟨⟨88, 40, 0, 0, 0, false⟩,
        store (store (store (store (store (fun _ => 0) 0 (-16)) 16 24) 40 24)
          64 25) 68 7⟩ : ChannelState).sync.FreePosition < MOD ∧
      (∀ l ∈ ([-16] : List Int), l < 0) ∧
      (∀ ol ∈ frameSpecAbs 128 0 [(-16 : Int)],
        (store (store (store (store (store (fun _ => (0 : Int)) 0 (-16)) 16 24)
          40 24) 64 25) 68 7) ol.1 = ol.2) ∧
      (∀ a ∈ properSumsAbs [(-16 : Int)], add32 0 a ≠ 40) ∧
      (add32 0 (sumAbs [-16]) = 40 ∨
        (0 : Int) ≤ (store (store (store (store (store (fun _ => (0 : Int)) 0
          (-16)) 16 24) 40 24) 64 25) 68 7) ((add32 0 (sumAbs [-16])) % 128)) ∧
      ([24, 24, 25] : List Int).length < 4 ∧
      (88 : Nat) = add32 (add32 0 (sumAbs [-16])) (sumEff [24, 24, 25]) ∧
      sumEff [24, 24, 25] < MOD ∧
      (∀ l ∈ ([24, 24, 25] : List Int), 0 < effLen l) ∧
      (∀ l ∈ ([24, 24, 25] : List Int), effLen l % 4 = 0) ∧
      (∀ ol ∈ frameSpec 128 (add32 0 (sumAbs [-16])) [(24 : Int), 24, 25],
        (store (store (store (store (store (fun _ => (0 : Int)) 0 (-16)) 16 24)
          40 24) 64 25) 68 7) ol.1 = ol.2) ∧
      (frameSpec 128 (add32 0 (sumAbs [-16]))
        [(24 : Int), 24, 25]).Pairwise spanDisjoint) ∧
    (∃ st', InitializeChannel 128 2 4
        (⟨⟨88, 40, 0, 0, 0, false⟩,
          store (store (store (store (store (fun _ => 0) 0 (-16)) 16 24) 40 24)
            64 25) 68 7⟩ : ChannelState) = some st' ∧
      st'.sync.ReadPosition = st'.sync.FreePosition ∧
      st'.sync.FreePosition = add32 0 (sumAbs [-16]) ∧
      st'.sync.WritePosition = 88 ∧
      st'.sync.TerminateChannel = false ∧
      (∀ ol ∈ frameSpec 128 (add32 0 (sumAbs [-16])) [(24 : Int), 24, 25],
        initFrameResult
          (store (store (store (store (store (fun _ => 0) 0 (-16)) 16 24) 40 24)
            64 25) 68 7)
          st'.mem ol)) :=
  ⟨⟨by decide, by decide, by decide, by decide, by decide, by decide,
      by decide, by decide, by decide, by decide, by decide, by decide,
      by decide⟩,
    InitializeChannel_recovers 128 2 4 _ [-16] [24, 24, 25] (by decide)
      (by decide) (by decide) (by decide) (by decide) (by decide) (by decide)
      (by decide) (by decide) (by decide) (by decide) (by decide) (by decide)⟩

/-! ## C9: create-or-update on an existing key binds to the stored
record -/

/-- What the create path of `CreateOrUpdateFromInSharedConfigDictionary`
does to the dictionary: some empty slot now holds the offset just past
the freshly allocated entry header, the record there is initialized from
the caller's default config (`ConfigId = 1`), and nothing else changes. -/
theorem CreateOrUpdate_created_state (keyHash : Nat → Nat) (payloadSize : Nat)
    (cc : ComponentConfig) :
    ∀ (fuel probingCount : Nat) (d d₁ : SharedConfigDictionary)
      (cc₁ : ComponentConfig),
    CreateOrUpdateFromInSharedConfigDictionary keyHash payloadSize cc d
      probingCount fuel = .created d₁ cc₁ →
    ∃ slotIndex,
      d.slots slotIndex = 0 ∧
      d₁.slots = store d.slots slotIndex
        (d.Allocator.FreeOffset + AllocationEntrySize) ∧
      d₁.records = store d.records (d.Allocator.FreeOffset + AllocationEntrySize)
        ⟨1, cc.CodegenTypeIndex, cc.key, cc.config⟩ ∧
      d₁.elementCount = d.elementCount ∧
      cc₁.boundOffset = some (d.Allocator.FreeOffset + AllocationEntrySize) := by
  intro fuel
  induction fuel with
  | zero => intro probingCount d d₁ cc₁ h; cases h
  | succ f ih =>
    intro probingCount d d₁ cc₁ h
    simp only [CreateOrUpdateFromInSharedConfigDictionary] at h
    by_cases hslot : d.slots ((keyHash cc.key + probingCount) % d.elementCount) = 0
    · rw [if_pos hslot] at h
      by_cases hoom : d.Allocator.AllocationBlockSize +
          d.Allocator.FirstAllocationOffset ≤
          d.Allocator.FreeOffset + (SharedConfigHeaderSize + payloadSize +
            AllocationEntrySize)
      · simp only [AllocateInMemoryRegion, if_pos hoom] at h
        cases h
      · simp only [AllocateInMemoryRegion, if_neg hoom] at h
        cases h
        exact ⟨(keyHash cc.key + probingCount) % d.elementCount, hslot,
          rfl, rfl, rfl, rfl⟩
    · rw [if_neg hslot] at h
      split at h
      · cases h
      · exact ih (probingCount + 1) d d₁ cc₁ h

/-- C9: if a first `create_or_update` created the record for a key, a
later call with the same key and codegen type but a different default
payload binds the caller's handle to the existing record and copies the
stored payload into the local config (the stored default wins); the
dictionary is returned unchanged — no slot is filled and no record is
overwritten. -/
theorem CreateOrUpdate_existing_stored_wins (keyHash : Nat → Nat)
    (ps₁ ps₂ : Nat) (cc₁ cc₂ : ComponentConfig) :
    ∀ (f₁ f₂ probingCount : Nat) (d₀ : SharedConfigDictionary),
    f₁ ≤ f₂ →
    (∀ i, d₀.slots i ≠ 0 → d₀.slots i < d₀.Allocator.FreeOffset) →
    0 < d₀.Allocator.FreeOffset →
    cc₂.key = cc₁.key →
    cc₂.CodegenTypeIndex = cc₁.CodegenTypeIndex →
    (CreateOrUpdateFromInSharedConfigDictionary keyHash ps₁ cc₁ d₀
      probingCount f₁).isCreated = true →
    CreateOrUpdateFromInSharedConfigDictionary keyHash ps₂ cc₂
      ((CreateOrUpdateFromInSharedConfigDictionary keyHash ps₁ cc₁ d₀
        probingCount f₁).dictD) probingCount f₂ =
    .existing
      ((CreateOrUpdateFromInSharedConfigDictionary keyHash ps₁ cc₁ d₀
        probingCount f₁).dictD)
      { cc₂ with
          boundOffset := ((CreateOrUpdateFromInSharedConfigDictionary keyHash
            ps₁ cc₁ d₀ probingCount f₁).ccD).boundOffset
          config := cc₁.config } := by
  intro f₁
  induction f₁ with
  | zero =>
    intro f₂ pc d₀ _ _ _ _ _ hcr
    simp [CreateOrUpdateFromInSharedConfigDictionary,
      CreateOrUpdateResult.isCreated] at hcr
  | succ f ih =>
    intro f₂ pc d₀ hf hwf hfo hkey hti hcr
    rcases f₂ with _ | g
    · omega
    · rcases hc1 : CreateOrUpdateFromInSharedConfigDictionary keyHash ps₁ cc₁
          d₀ pc (f + 1) with ⟨de, ce⟩ | ⟨d₁, cc₁'⟩ | _ | _
      · rw [hc1] at hcr; simp [CreateOrUpdateResult.isCreated] at hcr
      case created =>
        rcases CreateOrUpdate_created_state keyHash ps₁ cc₁ (f + 1) pc d₀ d₁
            cc₁' hc1 with ⟨si, hsi0, hslots, hrecords, hcount, hbound⟩
        have hAES : AllocationEntrySize = 8 := rfl
        have hoffne : d₀.Allocator.FreeOffset + AllocationEntrySize ≠ 0 := by
          omega
        simp only [CreateOrUpdateResult.dictD, CreateOrUpdateResult.ccD]
        simp only [CreateOrUpdateFromInSharedConfigDictionary, hkey, hcount]
        by_cases hslot : d₀.slots ((keyHash cc₁.key + pc) % d₀.elementCount) = 0
        · -- the first call created the record at this very probe step
          simp only [CreateOrUpdateFromInSharedConfigDictionary,
            if_pos hslot] at hc1
          by_cases hoom : d₀.Allocator.AllocationBlockSize +
              d₀.Allocator.FirstAllocationOffset ≤
              d₀.Allocator.FreeOffset + (SharedConfigHeaderSize + ps₁ +
                AllocationEntrySize)
          · simp only [AllocateInMemoryRegion, if_pos hoom] at hc1
            cases hc1
          · simp only [AllocateInMemoryRegion, if_neg hoom] at hc1
            cases hc1
            dsimp only
            rw [store_self, if_neg hoffne, store_self]
            rw [if_pos ⟨hti.symm, rfl⟩]
        · -- the first call probed past this occupied slot
          rw [hslots]
          have hsine : (keyHash cc₁.key + pc) % d₀.elementCount ≠ si := by
            intro hcontra
            rw [hcontra] at hslot
            exact hslot hsi0
          rw [store_ne _ _ _ _ hsine, if_neg hslot, hrecords,
            store_ne _ _ _ _ ?_]
          · -- the record at the occupied slot is unchanged; its key does
            -- not match (the first call would have returned the existing
            -- record otherwise), so both calls probe on
            simp only [CreateOrUpdateFromInSharedConfigDictionary,
              if_neg hslot] at hc1
            split at hc1
            · cases hc1
            · next hmatch =>
              rw [if_neg (by rw [hti]; exact hmatch)]
              have := ih g (pc + 1) d₀ (by omega) hwf hfo hkey hti
                (by rw [hc1]; rfl)
              rw [hc1] at this
              simp only [CreateOrUpdateResult.dictD,
                CreateOrUpdateResult.ccD] at this
              rw [hkey] at this
              exact this
          · have := hwf _ hslot
            omega
      · rw [hc1] at hcr; simp [CreateOrUpdateResult.isCreated] at hcr
      · rw [hc1] at hcr; simp [CreateOrUpdateResult.isCreated] at hcr

theorem CreateOrUpdate_existing_stored_wins_witness :
    ((1 : Nat) ≤ 2 ∧
      (∀ i, emptyDict.slots i ≠ 0 →
        emptyDict.slots i < emptyDict.Allocator.FreeOffset) ∧
      0 < emptyDict.Allocator.FreeOffset ∧
      ccSecond.key = ccFirst.key ∧
      ccSecond.CodegenTypeIndex = ccFirst.CodegenTypeIndex ∧
      (CreateOrUpdateFromInSharedConfigDictionary id 8 ccFirst emptyDict 0
        1).isCreated = true) ∧
    CreateOrUpdateFromInSharedConfigDictionary id 8 ccSecond
      ((CreateOrUpdateFromInSharedConfigDictionary id 8 ccFirst emptyDict 0
        1).dictD) 0 2 =
    .existing
      ((CreateOrUpdateFromInSharedConfigDictionary id 8 ccFirst emptyDict 0
        1).dictD)
      { ccSecond with
          boundOffset := ((CreateOrUpdateFromInSharedConfigDictionary id 8
            ccFirst emptyDict 0 1).ccD).boundOffset
          config := ccFirst.config } := by
  refine ⟨⟨by decide, ?_, by decide, rfl, rfl, by decide⟩, ?_⟩
  · intro i hi
    exact absurd rfl hi
  · exact CreateOrUpdate_existing_stored_wins id 8 8 ccFirst ccSecond 1 2 0
      emptyDict (by decide) (fun i hi => absurd rfl hi) (by decide) rfl rfl
      (by decide)
